import Mathlib

/-!
Verification of the `ar` (Unix archive) streaming codec.

Bytes are modelled as natural numbers (all values produced lie below 256).
The in-memory data model (`Header`, `Variant`, the global magic and the
reserved sentinel identifiers) is translated from `src/lib.rs`.  The codec
itself (header field encoding/decoding, the per-variant name escapes, the
GNU name table, the builders and the archive reader) lives in the crate's
`read.rs`/`write.rs`, which are not part of the provided sources; those
operations are modelled from the specification, as marked on each
definition.
-/

-- ======================================================================= --
-- Data model, translated from src/lib.rs
-- ======================================================================= --

/-- Variants of the Unix archive format (`enum Variant` in `lib.rs`). -/
inductive Variant where
  | Common
  | BSD
  | GNU
deriving DecidableEq

/-- Representation of an archive entry header (`struct Header` in `lib.rs`).
Numeric fields are the mathematical values of the Rust `u64`/`u32` fields. -/
structure Header where
  identifier : List Nat
  mtime : Nat
  uid : Nat
  gid : Nat
  mode : Nat
  size : Nat
deriving DecidableEq

/-- Creates a header with the given file identifier and size, and all other
fields set to zero (`Header::new` in `lib.rs`). -/
def Header.new (identifier : List Nat) (size : Nat) : Header :=
  { identifier := identifier, mtime := 0, uid := 0, gid := 0, mode := 0, size := size }

/-- The 8-byte global magic, the bytes of the string literal
`b"!<arch>\x0A"` (`GLOBAL_HEADER` in `lib.rs`). -/
def globalHeader : List Nat := [33, 60, 97, 114, 99, 104, 62, 10]

/-- Length of an entry header on the wire (`ENTRY_HEADER_LEN` in `lib.rs`). -/
def entryHeaderLen : Nat := 60

/-- Bytes of the BSD symbol lookup table identifier `"__.SYMDEF"`
(`BSD_SYMBOL_LOOKUP_TABLE_ID` in `lib.rs`). -/
def bsdSymdefId : List Nat := [95, 95, 46, 83, 89, 77, 68, 69, 70]

/-- Bytes of the sorted BSD symbol lookup table identifier
`"__.SYMDEF SORTED"` (`BSD_SORTED_SYMBOL_LOOKUP_TABLE_ID` in `lib.rs`). -/
def bsdSymdefSortedId : List Nat :=
  bsdSymdefId ++ [32, 83, 79, 82, 84, 69, 68]

/-- Bytes of the GNU name table identifier `"//"` (`GNU_NAME_TABLE_ID`). -/
def gnuNameTableId : List Nat := [47, 47]

/-- Bytes of the GNU symbol lookup table identifier `"/"`
(`GNU_SYMBOL_LOOKUP_TABLE_ID`). -/
def gnuSymbolTableId : List Nat := [47]

-- ======================================================================= --
-- ASCII numeric field rendering and parsing (spec section 4.1)
-- ======================================================================= --

/-- Modelled from the spec: fixed-width fields are left-justified and
space-padded to their width (section 4.1). -/
def padField (w : Nat) (bs : List Nat) : List Nat :=
  bs ++ List.replicate (w - bs.length) 32

/-- Fuel-driven most-significant-first digit rendering; the fuel bounds the
number of divisions and is always chosen at least `n + 1`. -/
def natToDigitsAux (base : Nat) : Nat → Nat → List Nat
  | 0, _ => []
  | fuel + 1, n =>
    if n = 0 then [] else natToDigitsAux base fuel (n / base) ++ [n % base + 48]

/-- Modelled from the spec: decimal ASCII rendering of a numeric header
field value (section 4.1). -/
def decBytes (n : Nat) : List Nat :=
  if n = 0 then [48] else natToDigitsAux 10 (n + 1) n

/-- Modelled from the spec: octal ASCII rendering of the mode field
(section 4.1). -/
def octBytes (n : Nat) : List Nat :=
  if n = 0 then [48] else natToDigitsAux 8 (n + 1) n

/-- ASCII decimal digit test. -/
def isDigitByte (b : Nat) : Bool := decide (48 ≤ b ∧ b ≤ 57)

/-- ASCII octal digit test. -/
def isOctalByte (b : Nat) : Bool := decide (48 ≤ b ∧ b ≤ 55)

/-- Drop the longest suffix whose bytes satisfy `p`. -/
def dropTrailing (p : Nat → Bool) (bs : List Nat) : List Nat :=
  (bs.reverse.dropWhile p).reverse

/-- Modelled from the spec: numeric fields are parsed after trimming
trailing spaces and NUL bytes (section 4.1). -/
def trimTrailing (bs : List Nat) : List Nat :=
  dropTrailing (fun b => b == 32 || b == 0) bs

/-- Trim only trailing spaces (used for the identifier field). -/
def trimTrailingSpaces (bs : List Nat) : List Nat :=
  dropTrailing (fun b => b == 32) bs

/-- Modelled from the spec: parse a trimmed field as an unsigned number in
the given base; empty or non-numeric content fails (section 4.1). -/
def parseBase (base : Nat) (digOk : Nat → Bool) (bs : List Nat) : Option Nat :=
  if bs.isEmpty then none
  else if bs.all digOk then some (bs.foldl (fun a b => a * base + (b - 48)) 0)
  else none

/-- Unsigned decimal field parser-function (spec section 4.1). -/
def parseDec (bs : List Nat) : Option Nat := parseBase 10 isDigitByte bs

/-- Unsigned octal field parse for the mode (spec section 4.1). -/
def parseOct (bs : List Nat) : Option Nat := parseBase 8 isOctalByte bs

/-- Decidable equality for `Except`, needed to evaluate codec results on
concrete inputs. -/
instance {ε α : Type} [DecidableEq ε] [DecidableEq α] : DecidableEq (Except ε α) :=
  fun x y =>
    match x, y with
    | .ok a, .ok b =>
      if h : a = b then .isTrue (by rw [h]) else
        .isFalse (by intro he; cases he; exact h rfl)
    | .error a, .error b =>
      if h : a = b then .isTrue (by rw [h]) else
        .isFalse (by intro he; cases he; exact h rfl)
    | .ok _, .error _ => .isFalse (by intro he; cases he)
    | .error _, .ok _ => .isFalse (by intro he; cases he)

-- ======================================================================= --
-- Raw 60-byte header codec (spec section 4.1)
-- ======================================================================= --

/-- A decoded on-wire header before variant-specific name resolution: the
raw 16-byte identifier field together with the parsed numeric fields. -/
structure RawHeader where
  idField : List Nat
  mtime : Nat
  uid : Nat
  gid : Nat
  mode : Nat
  size : Nat
deriving DecidableEq

/-- Modelled from the spec: decode of the 60-byte fixed-field entry header
(section 4.1).  Reads the identifier field raw, parses the numeric fields
(decimal, except the octal mode) after trimming, and validates the
terminating backtick/newline marker. -/
def decodeRawHeader (bs : List Nat) : Option RawHeader :=
  if bs.length < 60 then none
  else if ((((((bs.drop 16).drop 12).drop 6).drop 6).drop 8).drop 10).take 2 = [96, 10] then
    match parseDec (trimTrailing ((bs.drop 16).take 12)),
        parseDec (trimTrailing (((bs.drop 16).drop 12).take 6)),
        parseDec (trimTrailing ((((bs.drop 16).drop 12).drop 6).take 6)),
        parseOct (trimTrailing (((((bs.drop 16).drop 12).drop 6).drop 6).take 8)),
        parseDec (trimTrailing ((((((bs.drop 16).drop 12).drop 6).drop 6).drop 8).take 10)) with
    | some mt, some u, some g, some md, some sz =>
      some ⟨bs.take 16, mt, u, g, md, sz⟩
    | _, _, _, _, _ => none
  else none

-- ======================================================================= --
-- Name codec, per variant (spec section 4.2)
-- ======================================================================= --

/-- Error taxonomy of the codec (spec section 7). -/
inductive ArError where
  | invalidMagic
  | truncatedHeader
  | malformedField
  | unsupportedLongName
  | nameTableOffsetOutOfRange
  | unexpectedIdentifier
deriving DecidableEq

/-- Modelled from the spec: a BSD name needs the `#1/` escape when it does
not fit the Common field or contains a space (section 4.2). -/
def bsdNeedsEscape (id : List Nat) : Bool :=
  decide (16 < id.length + 1) || id.contains 32

/-- Does a byte sequence contain the GNU name-table terminator `/`
followed by a newline? -/
def hasSlashNl : List Nat → Bool
  | [] => false
  | b :: rest => (b == 47 && rest.head? == some 10) || hasSlashNl rest

/-- Modelled from the spec: the GNU name table payload is each name
terminated by slash-newline, concatenated in declaration order.  The
spec's wire-exact GNU example (section 8) shows every declared identifier
in the table, including short simple ones, so all identifiers are entered;
this matches the example byte-for-byte. -/
def gnuTable (ids : List (List Nat)) : List Nat :=
  (ids.map (fun id => id ++ [47, 10])).flatten

/-- Modelled from the spec: eager offset computation at `GnuBuilder`
construction time (section 4.5): each identifier is paired with its byte
offset in the name table, in declaration order. -/
def gnuOffsets : List (List Nat) → Nat → List (List Nat × Nat)
  | [], _ => []
  | id :: rest, c => (id, c) :: gnuOffsets rest (c + (id.length + 2))

/-- First-match association lookup over the precomputed offset list. -/
def assocFind : List (List Nat × Nat) → List Nat → Option Nat
  | [], _ => none
  | kv :: rest, id => if kv.1 = id then some kv.2 else assocFind rest id

/-- Modelled from the spec: per-variant encoding of an identifier
(section 4.2).  Returns the unpadded identifier field bytes together with
the payload prefix (the raw name bytes for a BSD long name; empty
otherwise).  Common names whose length with the trailing `/` terminator
exceeds 16 bytes are an `UnsupportedLongName` error; a GNU identifier
outside the precomputed table is an `UnexpectedIdentifier` error. -/
def encodeIdField (v : Variant) (ctx : List (List Nat)) (id : List Nat) :
    Except ArError (List Nat × List Nat) :=
  match v with
  | .Common =>
    if id.length + 1 ≤ 16 then .ok (id ++ [47], [])
    else .error .unsupportedLongName
  | .BSD =>
    if bsdNeedsEscape id then .ok ([35, 49, 47] ++ decBytes id.length, id)
    else .ok (id ++ [47], [])
  | .GNU =>
    match assocFind (gnuOffsets ctx 0) id with
    | some off => .ok ([47] ++ decBytes off, [])
    | none => .error .unexpectedIdentifier

/-- Modelled from the spec: assembly of the 60 header bytes from a
resolved identifier field, the header's metadata and the on-wire size
value (sections 4.1 and 4.2). -/
def headerBytes (field : List Nat) (h : Header) (sizeVal : Nat) : List Nat :=
  padField 16 field ++ padField 12 (decBytes h.mtime) ++
  padField 6 (decBytes h.uid) ++ padField 6 (decBytes h.gid) ++
  padField 8 (octBytes h.mode) ++ padField 10 (decBytes sizeVal) ++ [96, 10]

/-- Modelled from the spec: variant-aware header encoding.  Produces the
60 header bytes and the payload prefix; for a BSD long name the on-wire
size is the combined name and content length (section 4.2). -/
def encodeHeaderParts (v : Variant) (ctx : List (List Nat)) (h : Header) :
    Except ArError (List Nat × List Nat) :=
  (encodeIdField v ctx h.identifier).map fun fp =>
    (headerBytes fp.1 h (h.size + fp.2.length), fp.2)

/-- The full wire prefix an encoded header contributes: the 60 header
bytes followed by the payload prefix. -/
def encodeHeaderV (v : Variant) (ctx : List (List Nat)) (h : Header) :
    Except ArError (List Nat) :=
  (encodeHeaderParts v ctx h).map fun hp => hp.1 ++ hp.2

/-- Extract the ok value of an encoding, defaulting to the empty list. -/
def exceptGet (e : Except ArError (List Nat)) : List Nat :=
  match e with
  | .ok v => v
  | .error _ => []

/-- Extract the ok value of a header/prefix encoding, defaulting to empty. -/
def partsGet (e : Except ArError (List Nat × List Nat)) : List Nat × List Nat :=
  match e with
  | .ok v => v
  | .error _ => ([], [])

/-- Modelled from the spec: Common identifier decoding: trim trailing
spaces, then strip the single trailing `/` terminator when present
(section 4.2). -/
def decodeIdCommon (field : List Nat) : List Nat :=
  let t := trimTrailingSpaces field
  if t.getLast? = some 47 then t.dropLast else t

/-- Scan for the name terminator slash-newline, returning the bytes before
it, or `none` when the terminator never occurs. -/
def takeUntilSlashNl : List Nat → Option (List Nat)
  | [] => none
  | b :: rest =>
    if b == 47 && rest.head? == some 10 then some []
    else (takeUntilSlashNl rest).map (fun tl => b :: tl)

/-- Modelled from the spec: look an offset up in the GNU name table; the
referenced name extends to the next slash-newline terminator.  An offset
the table does not cover fails (section 4.2). -/
def gnuLookup (table : List Nat) (off : Nat) : Option (List Nat) :=
  if off < table.length then takeUntilSlashNl (table.drop off) else none

/-- Modelled from the spec: variant-aware header decoding over the wire
prefix `bs` (the 60 header bytes followed by the payload).  BSD resolves a
`#1/N` field by reading the first `N` payload bytes as the name and
reducing the size; GNU resolves a `/offset` field through the name table;
both fall back to Common decoding otherwise (section 4.2). -/
def decodeHeaderV (v : Variant) (table : List Nat) (bs : List Nat) :
    Option Header :=
  match decodeRawHeader bs with
  | none => none
  | some r =>
    match v with
    | .Common =>
      some ⟨decodeIdCommon r.idField, r.mtime, r.uid, r.gid, r.mode, r.size⟩
    | .BSD =>
      if (trimTrailingSpaces r.idField).take 3 = [35, 49, 47] ∧
          (trimTrailingSpaces r.idField).drop 3 ≠ [] ∧
          ((trimTrailingSpaces r.idField).drop 3).all isDigitByte then
        match parseDec ((trimTrailingSpaces r.idField).drop 3) with
        | some n =>
          if n ≤ r.size ∧ ((bs.drop 60).take n).length = n then
            some ⟨(bs.drop 60).take n, r.mtime, r.uid, r.gid, r.mode, r.size - n⟩
          else none
        | none => none
      else
        some ⟨decodeIdCommon r.idField, r.mtime, r.uid, r.gid, r.mode, r.size⟩
    | .GNU =>
      if (trimTrailingSpaces r.idField).take 1 = [47] ∧
          (trimTrailingSpaces r.idField).drop 1 ≠ [] ∧
          ((trimTrailingSpaces r.idField).drop 1).all isDigitByte then
        match parseDec ((trimTrailingSpaces r.idField).drop 1) with
        | some off =>
          match gnuLookup table off with
          | some name => some ⟨name, r.mtime, r.uid, r.gid, r.mode, r.size⟩
          | none => none
        | none => none
      else
        some ⟨decodeIdCommon r.idField, r.mtime, r.uid, r.gid, r.mode, r.size⟩

/-- Modelled from the spec: which identifiers a variant can represent
(sections 4.2 and 8): Common is limited to names fitting the 16-byte field
with their terminator; BSD represents any name; GNU represents any name
not containing the table terminator slash-newline, provided it was
declared to the builder. -/
def representableIn (v : Variant) (ctx : List (List Nat)) (id : List Nat) : Bool :=
  match v with
  | .Common => decide (id.length + 1 ≤ 16)
  | .BSD => true
  | .GNU => !hasSlashNl id && ctx.contains id

/-- Do the rendered numeric metadata fields of a header fit their fixed
widths (12, 6, 6 and octal 8)? -/
def numFit (h : Header) : Bool :=
  decide ((decBytes h.mtime).length ≤ 12) &&
  decide ((decBytes h.uid).length ≤ 6) &&
  decide ((decBytes h.gid).length ≤ 6) &&
  decide ((octBytes h.mode).length ≤ 8)

/-- Do the resolved identifier field and the rendered on-wire size of a
header fit their fixed widths (16 and 10)? -/
def idSizeFit (v : Variant) (ctx : List (List Nat)) (h : Header) : Bool :=
  match encodeIdField v ctx h.identifier with
  | .ok fp =>
    decide (fp.1.length ≤ 16) && decide ((decBytes (h.size + fp.2.length)).length ≤ 10)
  | .error _ => false

-- ======================================================================= --
-- Record framing and writers (spec sections 4.5 and 6)
-- ======================================================================= --

/-- Modelled from the spec: one on-wire record: the header bytes, the
payload, and a single newline pad byte when the payload length is odd
(section 6). -/
def writeRecord (hdr : List Nat) (payload : List Nat) : List Nat :=
  hdr ++ payload ++ (if payload.length % 2 = 1 then [10] else [])

/-- Modelled from the spec: the generic builder's append: encode the
header (name resolution included), then the payload prefix and content,
then the pad byte (section 4.5). -/
def builderAppend (v : Variant) (ctx : List (List Nat)) (h : Header)
    (content : List Nat) : Except ArError (List Nat) :=
  (encodeHeaderParts v ctx h).map fun hp => writeRecord hp.1 (hp.2 ++ content)

/-- Modelled from the spec: the GNU builder holds the declared identifier
list and the offsets precomputed at construction time (section 4.5). -/
structure GnuBuilder where
  ids : List (List Nat)
  offsets : List (List Nat × Nat)

/-- Modelled from the spec: constructing a `GnuBuilder` takes the complete
ordered identifier list and computes every offset eagerly (section 4.5). -/
def GnuBuilder.new (ids : List (List Nat)) : GnuBuilder :=
  ⟨ids, gnuOffsets ids 0⟩

/-- Modelled from the spec: the name-table pseudo-entry the `GnuBuilder`
writes first: a record under the reserved identifier `//` whose payload is
the name table (sections 4.5 and 3). -/
def nameTableRecord (ids : List (List Nat)) : List Nat :=
  writeRecord (headerBytes gnuNameTableId (Header.new [] 0) (gnuTable ids).length)
    (gnuTable ids)

/-- Modelled from the spec: a `GnuBuilder` append looks its identifier up
among the precomputed offsets; an identifier outside the declared set is
an `UnexpectedIdentifier` error, otherwise the entry is written with the
`/offset` identifier field (section 4.5). -/
def GnuBuilder.append (b : GnuBuilder) (h : Header) (content : List Nat) :
    Except ArError (List Nat) :=
  match assocFind b.offsets h.identifier with
  | none => .error .unexpectedIdentifier
  | some off =>
    .ok (writeRecord (headerBytes ([47] ++ decBytes off) h h.size) content)

-- ======================================================================= --
-- Archive reader (spec section 4.4)
-- ======================================================================= --

/-- A surfaced (non-pseudo) entry: the raw identifier field of its record,
the decoded raw header, and the payload bytes. -/
structure ArEntry where
  rawIdField : List Nat
  header : RawHeader
  content : List Nat
deriving DecidableEq

/-- Is a trimmed identifier field one of the reserved pseudo-entry
sentinels consumed internally by the reader (spec section 6)? -/
def isPseudoId (t : List Nat) : Bool :=
  t == gnuNameTableId || t == gnuSymbolTableId ||
  t == bsdSymdefId || t == bsdSymdefSortedId

/-- Modelled from the spec: the reader's record loop (section 4.4), with
explicit fuel (each step consumes at least a 60-byte header, so any fuel
above the stream length is enough).  A clean end of stream at a record
boundary terminates normally; pseudo-entries are consumed without being
surfaced; short headers and short payloads fail. -/
def parseEntriesF : Nat → List Nat → Except ArError (List ArEntry)
  | 0, _ => .error .truncatedHeader
  | fuel + 1, bs =>
    if bs = [] then .ok []
    else if bs.length < 60 then .error .truncatedHeader
    else
      match decodeRawHeader bs with
      | none => .error .malformedField
      | some r =>
        if bs.length - 60 < r.size then .error .truncatedHeader
        else if isPseudoId (trimTrailingSpaces r.idField) then
          parseEntriesF fuel (bs.drop (60 + r.size + r.size % 2))
        else
          match parseEntriesF fuel (bs.drop (60 + r.size + r.size % 2)) with
          | .ok es => .ok (⟨r.idField, r, (bs.drop 60).take r.size⟩ :: es)
          | .error e => .error e

/-- The reader's record loop at sufficient fuel. -/
def parseEntries (bs : List Nat) : Except ArError (List ArEntry) :=
  parseEntriesF (bs.length + 1) bs

/-- Modelled from the spec: the archive reader verifies the 8-byte magic
first; a mismatch is the fatal `InvalidMagic` (section 4.4). -/
def checkMagic (bs : List Nat) : Bool := bs.take 8 == globalHeader

/-- Modelled from the spec: read a whole archive: magic check, then the
record loop over the remaining bytes (section 4.4). -/
def readArchive (bs : List Nat) : Except ArError (List ArEntry) :=
  if checkMagic bs then parseEntries (bs.drop 8) else .error .invalidMagic

-- ======================================================================= --
-- Streaming entry reads (spec section 4.4, StreamingEntry)
-- ======================================================================= --

/-- Modelled from the spec: the state of one streaming entry: the declared
bytes still owed to the caller, and the underlying byte source
(section 4.4). -/
structure EntryState where
  sizeRemaining : Nat
  source : List Nat

/-- Modelled from the spec: one read call of up to `n` bytes: the request
is clipped to `sizeRemaining`, which the returned bytes decrement
(section 4.4). -/
def entryRead (st : EntryState) (n : Nat) : List Nat × EntryState :=
  let out := st.source.take (min n st.sizeRemaining)
  (out, ⟨st.sizeRemaining - out.length, st.source.drop out.length⟩)

/-- A sequence of read calls with the given request sizes, concatenating
everything returned. -/
def entryReads (st : EntryState) : List Nat → List Nat × EntryState
  | [] => ([], st)
  | n :: ns =>
    let r := entryRead st n
    let rs := entryReads r.2 ns
    (r.1 ++ rs.1, rs.2)

-- ======================================================================= --
-- Concrete example data (from the spec's worked examples)
-- ======================================================================= --

/-- The bytes of the spec's example long identifier
`"this is a long name.txt"` (23 bytes, contains spaces). -/
def exampleLongName : List Nat :=
  [116, 104, 105, 115, 32, 105, 115, 32, 97, 32, 108, 111, 110, 103, 32,
   110, 97, 109, 101, 46, 116, 120, 116]

/-- The bytes of the content `b"hello"` of the spec's BSD example. -/
def exampleHello : List Nat := [104, 101, 108, 108, 111]

/-- The bytes of `"a.txt"`. -/
def exampleAName : List Nat := [97, 46, 116, 120, 116]

/-- The bytes of `"b.txt"`. -/
def exampleBName : List Nat := [98, 46, 116, 120, 116]

/-- The spec's example GNU identifier list
`["a.txt", "this is a long name.txt", "b.txt"]`. -/
def exampleGnuIds : List (List Nat) := [exampleAName, exampleLongName, exampleBName]

/-- A header whose mtime needs 13 decimal digits, overflowing the 12-byte
mtime field. -/
def c1Bad : Header := Header.mk [97] 1000000000000 0 0 0 0

/-- A 16-byte identifier that contains the GNU name-table terminator
slash-newline. -/
def c6Bad : List Nat := List.replicate 14 97 ++ [47, 10]

/-- An identifier so long that its decimal length does not fit the BSD
`#1/N` escape field. -/
def c2Bad : List Nat := List.replicate 10000000000000 97

/-- Modelled from the spec: the alternative reading of section 4.2's GNU
rule, under which only identifiers needing the long-name escape (longer
than the Common capacity, or containing a space or a slash) enter the name
table.  Kept for comparison with `gnuTable`. -/
def gnuNeedsEscapeSpec (id : List Nat) : Bool :=
  decide (16 < id.length + 1) || id.contains 32 || id.contains 47

/-- Modelled from the spec: the name table under the filtered reading of
section 4.2 (only escape-needing identifiers included). -/
def gnuTableFiltered (ids : List (List Nat)) : List Nat :=
  gnuTable (ids.filter (fun id => gnuNeedsEscapeSpec id))

/-- A concrete archive: the magic, an empty GNU name-table pseudo-entry
under the reserved identifier `//`, and one real entry `f.txt`. -/
def c8Archive : List Nat :=
  globalHeader ++ nameTableRecord [] ++
    exceptGet (builderAppend .Common [] (Header.mk [102, 46, 116, 120, 116] 0 0 0 0 1) [104])

/-- The single real entry the reader surfaces from `c8Archive`. -/
def c8Entry : ArEntry :=
  ⟨padField 16 [102, 46, 116, 120, 116, 47],
   ⟨padField 16 [102, 46, 116, 120, 116, 47], 0, 0, 0, 0, 1⟩, [104]⟩

-- ======================================================================= --
-- First theorems: Header.new (claim C10)
-- ======================================================================= --

/-- C10: for every identifier byte sequence and size, `Header.new` returns
a header whose identifier and size are the given ones and whose mtime, uid,
gid and mode are all zero. -/
theorem headerNew_fields (id : List Nat) (sz : Nat) :
    (Header.new id sz).identifier = id ∧ (Header.new id sz).size = sz ∧
    (Header.new id sz).mtime = 0 ∧ (Header.new id sz).uid = 0 ∧
    (Header.new id sz).gid = 0 ∧ (Header.new id sz).mode = 0 :=
  ⟨rfl, rfl, rfl, rfl, rfl, rfl⟩

-- ======================================================================= --
-- Lemmas: digit rendering and parsing
-- ======================================================================= --

theorem natToDigitsAux_mem (base : Nat) (hb : 2 ≤ base) :
    ∀ fuel n b, b ∈ natToDigitsAux base fuel n → 48 ≤ b ∧ b < 48 + base := by
  intro fuel
  induction fuel with
  | zero => intro n b hmem; simp [natToDigitsAux] at hmem
  | succ fuel ih =>
    intro n b hmem
    by_cases h0 : n = 0
    · simp [natToDigitsAux, h0] at hmem
    · simp only [natToDigitsAux, h0, if_false, List.mem_append, List.mem_singleton] at hmem
      rcases hmem with hmem | hmem
      · exact ih _ _ hmem
      · subst hmem
        have : n % base < base := Nat.mod_lt _ (by omega)
        omega

theorem natToDigitsAux_foldl (base : Nat) (hb : 2 ≤ base) :
    ∀ fuel n acc, n < fuel →
      (natToDigitsAux base fuel n).foldl (fun a b => a * base + (b - 48)) acc =
        acc * base ^ (natToDigitsAux base fuel n).length + n := by
  intro fuel
  induction fuel with
  | zero => intro n acc h; omega
  | succ fuel ih =>
    intro n acc h
    by_cases h0 : n = 0
    · simp [natToDigitsAux, h0]
    · have hdiv : n / base < fuel := by
        have h1 : n / base < n := Nat.div_lt_self (by omega) (by omega)
        omega
      simp only [natToDigitsAux, h0, if_false, List.foldl_append, List.foldl_cons,
        List.foldl_nil, List.length_append, List.length_cons, List.length_nil]
      rw [ih _ acc hdiv]
      have hmod : n % base + 48 - 48 = n % base := by omega
      rw [hmod]
      have hpow : base ^ ((natToDigitsAux base fuel (n / base)).length + (0 + 1)) =
          base ^ (natToDigitsAux base fuel (n / base)).length * base := by
        rw [Nat.zero_add, pow_succ]
      rw [hpow]
      have := Nat.div_add_mod n base
      ring_nf
      omega

theorem decBytes_mem (n b : Nat) (hmem : b ∈ decBytes n) : 48 ≤ b ∧ b ≤ 57 := by
  unfold decBytes at hmem
  by_cases h0 : n = 0
  · simp [h0] at hmem; omega
  · simp only [h0, if_false] at hmem
    have := natToDigitsAux_mem 10 (by omega) (n + 1) n b hmem
    omega

theorem octBytes_mem (n b : Nat) (hmem : b ∈ octBytes n) : 48 ≤ b ∧ b ≤ 55 := by
  unfold octBytes at hmem
  by_cases h0 : n = 0
  · simp [h0] at hmem; omega
  · simp only [h0, if_false] at hmem
    have := natToDigitsAux_mem 8 (by omega) (n + 1) n b hmem
    omega

theorem decBytes_ne_nil (n : Nat) : decBytes n ≠ [] := by
  unfold decBytes
  by_cases h0 : n = 0
  · simp [h0]
  · simp only [h0, if_false]
    unfold natToDigitsAux
    simp [h0]

theorem octBytes_ne_nil (n : Nat) : octBytes n ≠ [] := by
  unfold octBytes
  by_cases h0 : n = 0
  · simp [h0]
  · simp only [h0, if_false]
    unfold natToDigitsAux
    simp [h0]

theorem parseDec_decBytes (n : Nat) : parseDec (decBytes n) = some n := by
  unfold parseDec parseBase
  have hne : decBytes n ≠ [] := decBytes_ne_nil n
  have hemp : (decBytes n).isEmpty = false := by
    cases hd : decBytes n with
    | nil => exact absurd hd hne
    | cons a tl => rfl
  rw [hemp]
  have hall : (decBytes n).all isDigitByte = true := by
    rw [List.all_eq_true]
    intro b hmem
    have := decBytes_mem n b hmem
    simp [isDigitByte]
    omega
  rw [hall]
  simp only [if_true, if_false, Bool.false_eq_true, Option.some.injEq]
  by_cases h0 : n = 0
  · subst h0; decide
  · unfold decBytes
    simp only [h0, if_false]
    rw [natToDigitsAux_foldl 10 (by omega) (n + 1) n 0 (by omega)]
    simp

theorem parseOct_octBytes (n : Nat) : parseOct (octBytes n) = some n := by
  unfold parseOct parseBase
  have hne : octBytes n ≠ [] := octBytes_ne_nil n
  have hemp : (octBytes n).isEmpty = false := by
    cases hd : octBytes n with
    | nil => exact absurd hd hne
    | cons a tl => rfl
  rw [hemp]
  have hall : (octBytes n).all isOctalByte = true := by
    rw [List.all_eq_true]
    intro b hmem
    have := octBytes_mem n b hmem
    simp [isOctalByte]
    omega
  rw [hall]
  simp only [if_true, if_false, Bool.false_eq_true, Option.some.injEq]
  by_cases h0 : n = 0
  · subst h0; decide
  · unfold octBytes
    simp only [h0, if_false]
    rw [natToDigitsAux_foldl 8 (by omega) (n + 1) n 0 (by omega)]
    simp

-- ======================================================================= --
-- Lemmas: trimming padded fields
-- ======================================================================= --

theorem dropWhile_eq_self_of_neg (p : Nat → Bool) (l : List Nat)
    (h : ∀ b ∈ l, p b = false) : l.dropWhile p = l := by
  cases l with
  | nil => rfl
  | cons a tl =>
    rw [List.dropWhile_cons]
    simp [h a (List.mem_cons_self a tl)]

theorem dropWhile_replicate_append (p : Nat → Bool) (c : Nat) (hc : p c = true)
    (l : List Nat) : ∀ k, (List.replicate k c ++ l).dropWhile p = l.dropWhile p := by
  intro k
  induction k with
  | zero => simp
  | succ k ih =>
    rw [List.replicate_succ, List.cons_append, List.dropWhile_cons]
    simp [hc, ih]

theorem dropTrailing_pad_of_all_neg (p : Nat → Bool) (bs : List Nat) (k : Nat)
    (hb : ∀ b ∈ bs, p b = false) (hsp : p 32 = true) :
    dropTrailing p (bs ++ List.replicate k 32) = bs := by
  unfold dropTrailing
  rw [List.reverse_append, List.reverse_replicate,
    dropWhile_replicate_append p 32 hsp _ k,
    dropWhile_eq_self_of_neg p bs.reverse (by intro b hmem; exact hb b (List.mem_reverse.mp hmem)),
    List.reverse_reverse]

theorem dropTrailing_pad_of_last_neg (p : Nat → Bool) (bs : List Nat) (a k : Nat)
    (ha : p a = false) (hsp : p 32 = true) :
    dropTrailing p ((bs ++ [a]) ++ List.replicate k 32) = bs ++ [a] := by
  unfold dropTrailing
  rw [List.reverse_append, List.reverse_replicate,
    dropWhile_replicate_append p 32 hsp _ k, List.reverse_append]
  simp only [List.reverse_cons, List.reverse_nil, List.nil_append, List.singleton_append,
    List.dropWhile_cons]
  simp [ha]

theorem trimTrailing_pad_dec (w n : Nat) :
    trimTrailing (padField w (decBytes n)) = decBytes n := by
  unfold trimTrailing padField
  apply dropTrailing_pad_of_all_neg
  · intro b hmem
    have := decBytes_mem n b hmem
    simp only [Bool.or_eq_false_iff, beq_eq_false_iff_ne, ne_eq]
    omega
  · rfl

theorem trimTrailing_pad_oct (w n : Nat) :
    trimTrailing (padField w (octBytes n)) = octBytes n := by
  unfold trimTrailing padField
  apply dropTrailing_pad_of_all_neg
  · intro b hmem
    have := octBytes_mem n b hmem
    simp only [Bool.or_eq_false_iff, beq_eq_false_iff_ne, ne_eq]
    omega
  · rfl

theorem parse_field_dec (w n : Nat) :
    parseDec (trimTrailing (padField w (decBytes n))) = some n := by
  rw [trimTrailing_pad_dec, parseDec_decBytes]

theorem parse_field_oct (w n : Nat) :
    parseOct (trimTrailing (padField w (octBytes n))) = some n := by
  rw [trimTrailing_pad_oct, parseOct_octBytes]

theorem padField_length (w : Nat) (bs : List Nat) (h : bs.length ≤ w) :
    (padField w bs).length = w := by
  unfold padField
  rw [List.length_append, List.length_replicate]
  omega

-- ======================================================================= --
-- Lemmas: decoding an encoded header
-- ======================================================================= --

theorem decodeRawHeader_headerBytes (field : List Nat) (h : Header) (sizeVal : Nat)
    (tail : List Nat) (hfld : field.length ≤ 16)
    (hmt : (decBytes h.mtime).length ≤ 12) (hu : (decBytes h.uid).length ≤ 6)
    (hg : (decBytes h.gid).length ≤ 6) (hmd : (octBytes h.mode).length ≤ 8)
    (hsz : (decBytes sizeVal).length ≤ 10) :
    decodeRawHeader (headerBytes field h sizeVal ++ tail) =
      some ⟨padField 16 field, h.mtime, h.uid, h.gid, h.mode, sizeVal⟩ := by
  have lA : (padField 16 field).length = 16 := padField_length _ _ hfld
  have lB : (padField 12 (decBytes h.mtime)).length = 12 := padField_length _ _ hmt
  have lC : (padField 6 (decBytes h.uid)).length = 6 := padField_length _ _ hu
  have lD : (padField 6 (decBytes h.gid)).length = 6 := padField_length _ _ hg
  have lE : (padField 8 (octBytes h.mode)).length = 8 := padField_length _ _ hmd
  have lF : (padField 10 (decBytes sizeVal)).length = 10 := padField_length _ _ hsz
  unfold headerBytes
  simp only [List.append_assoc]
  unfold decodeRawHeader
  rw [List.drop_left' lA, List.take_left' lA]
  rw [List.drop_left' lB, List.take_left' lB]
  rw [List.drop_left' lC, List.take_left' lC]
  rw [List.drop_left' lD, List.take_left' lD]
  rw [List.drop_left' lE, List.take_left' lE]
  rw [List.drop_left' lF, List.take_left' lF]
  have hlen : ¬((padField 16 field ++ (padField 12 (decBytes h.mtime) ++
      (padField 6 (decBytes h.uid) ++ (padField 6 (decBytes h.gid) ++
      (padField 8 (octBytes h.mode) ++ (padField 10 (decBytes sizeVal) ++
      ([96, 10] ++ tail))))))).length < 60) := by
    simp only [List.length_append, lA, lB, lC, lD, lE, lF, Nat.not_lt]
    simp only [List.length_cons, List.length_nil]
    omega
  rw [if_neg hlen]
  have hmark : (([96, 10] ++ tail).take 2 : List Nat) = [96, 10] :=
    List.take_left' (by rfl)
  rw [if_pos hmark]
  rw [parse_field_dec, parse_field_dec, parse_field_dec, parse_field_oct, parse_field_dec]

-- ======================================================================= --
-- Lemmas: identifier field resolution
-- ======================================================================= --

theorem trimSpaces_pad_concat (bs : List Nat) (a w : Nat) (ha : a ≠ 32) :
    trimTrailingSpaces (padField w (bs ++ [a])) = bs ++ [a] := by
  unfold trimTrailingSpaces padField
  exact dropTrailing_pad_of_last_neg _ bs a _ (by simp [ha]) rfl

theorem trimSpaces_pad_all (bs : List Nat) (w : Nat) (hb : ∀ b ∈ bs, b ≠ 32) :
    trimTrailingSpaces (padField w bs) = bs := by
  unfold trimTrailingSpaces padField
  exact dropTrailing_pad_of_all_neg _ bs _ (by intro b hmem; simp [hb b hmem]) rfl

theorem decodeIdCommon_pad (id : List Nat) :
    decodeIdCommon (padField 16 (id ++ [47])) = id := by
  unfold decodeIdCommon
  rw [trimSpaces_pad_concat id 47 16 (by omega)]
  have hlast : (id ++ [47]).getLast? = some 47 := by
    rw [List.getLast?_concat]
  rw [if_pos hlast, List.dropLast_concat]

theorem bsd_guard_fails_common (id : List Nat) :
    ¬((id ++ [47]).take 3 = [35, 49, 47] ∧ (id ++ [47]).drop 3 ≠ [] ∧
      ((id ++ [47]).drop 3).all isDigitByte) := by
  rintro ⟨h1, h2, h3⟩
  by_cases hlen : id.length ≤ 2
  · apply h2
    have : (id ++ [47]).length ≤ 3 := by
      rw [List.length_append]
      simp only [List.length_cons, List.length_nil]
      omega
    exact List.drop_eq_nil_of_le this
  · have hd : (id ++ [47]).drop 3 = id.drop 3 ++ [47] :=
      List.drop_append_of_le_length (by omega)
    rw [hd, List.all_eq_true] at h3
    have h47 : (47 : Nat) ∈ id.drop 3 ++ [47] := by simp
    have := h3 _ h47
    simp [isDigitByte] at this

-- ======================================================================= --
-- Lemmas: the GNU name table
-- ======================================================================= --

theorem assocFind_gnuOffsets_some (ids : List (List Nat)) (id : List Nat)
    (hmem : id ∈ ids) : ∀ c, ∃ off, assocFind (gnuOffsets ids c) id = some off := by
  induction ids with
  | nil => cases hmem
  | cons x rest ih =>
    intro c
    by_cases hx : x = id
    · exact ⟨c, by simp [gnuOffsets, assocFind, hx]⟩
    · have : id ∈ rest := by
        cases List.mem_cons.mp hmem with
        | inl h => exact absurd h.symm hx
        | inr h => exact h
      obtain ⟨off, hoff⟩ := ih this (c + (x.length + 2))
      exact ⟨off, by simp [gnuOffsets, assocFind, hx, hoff]⟩

theorem assocFind_gnuOffsets_none (ids : List (List Nat)) (id : List Nat)
    (hmem : ¬id ∈ ids) : ∀ c, assocFind (gnuOffsets ids c) id = none := by
  induction ids with
  | nil => intro c; rfl
  | cons x rest ih =>
    intro c
    have hx : ¬x = id := fun h => hmem (h ▸ List.mem_cons_self x rest)
    have hr : ¬id ∈ rest := fun h => hmem (List.mem_cons_of_mem x h)
    simp [gnuOffsets, assocFind, hx, ih hr]

theorem gnuTable_cons (x : List Nat) (rest : List (List Nat)) :
    gnuTable (x :: rest) = x ++ 47 :: 10 :: gnuTable rest := by
  unfold gnuTable
  simp

theorem gnuOffsets_table (ids : List (List Nat)) (id : List Nat) :
    ∀ c off, assocFind (gnuOffsets ids c) id = some off →
      c ≤ off ∧ ∃ suf, (gnuTable ids).drop (off - c) = id ++ 47 :: 10 :: suf := by
  induction ids with
  | nil => intro c off h; exact absurd h (by simp [gnuOffsets, assocFind])
  | cons x rest ih =>
    intro c off h
    simp only [gnuOffsets, assocFind] at h
    by_cases hx : x = id
    · rw [if_pos hx, Option.some.injEq] at h
      subst h
      subst hx
      refine ⟨Nat.le_refl c, gnuTable rest, ?_⟩
      rw [Nat.sub_self, List.drop_zero, gnuTable_cons]
    · rw [if_neg hx] at h
      obtain ⟨hle, suf, hsuf⟩ := ih _ _ h
      refine ⟨by omega, suf, ?_⟩
      rw [gnuTable_cons]
      have hsplit : x ++ 47 :: 10 :: gnuTable rest = (x ++ [47, 10]) ++ gnuTable rest := by
        simp
      rw [hsplit, List.drop_append_eq_append_drop]
      have hxl : (x ++ [47, 10]).length = x.length + 2 := by
        simp
      have hnil : (x ++ [47, 10]).drop (off - c) = [] := by
        apply List.drop_eq_nil_of_le
        omega
      rw [hnil, List.nil_append, hxl]
      have harith : off - c - (x.length + 2) = off - (c + (x.length + 2)) := by omega
      rw [harith, hsuf]

theorem takeUntilSlashNl_append (id : List Nat) (suf : List Nat)
    (h : hasSlashNl id = false) :
    takeUntilSlashNl (id ++ 47 :: 10 :: suf) = some id := by
  induction id with
  | nil =>
    simp [takeUntilSlashNl]
  | cons b tl ih =>
    simp only [hasSlashNl, Bool.or_eq_false_iff, Bool.and_eq_false_iff] at h
    obtain ⟨hhead, htl⟩ := h
    rw [List.cons_append]
    unfold takeUntilSlashNl
    cases tl with
    | nil =>
      have hcond : (b == 47 && (([] : List Nat) ++ 47 :: 10 :: suf).head? == some 10) = false := by
        simp
      rw [hcond]
      simp [takeUntilSlashNl]
    | cons t ts =>
      have hh : ((t :: ts : List Nat) ++ 47 :: 10 :: suf).head? = some t := rfl
      have hcond : (b == 47 && ((t :: ts : List Nat) ++ 47 :: 10 :: suf).head? == some 10) = false := by
        rw [hh]
        rcases hhead with hb | ht
        · simp [hb]
        · simp only [List.head?_cons] at ht
          simp [ht]
      rw [hcond]
      simp only [Bool.false_eq_true, if_false]
      rw [ih htl]
      rfl

theorem gnuLookup_table (ids : List (List Nat)) (id : List Nat) (off : Nat)
    (h1 : assocFind (gnuOffsets ids 0) id = some off)
    (h2 : hasSlashNl id = false) :
    gnuLookup (gnuTable ids) off = some id := by
  obtain ⟨-, suf, hsuf⟩ := gnuOffsets_table ids id 0 off h1
  rw [Nat.sub_zero] at hsuf
  have hlen : (gnuTable ids).length - off = id.length + suf.length + 2 := by
    have := congrArg List.length hsuf
    rw [List.length_drop] at this
    simp only [List.length_append, List.length_cons] at this
    omega
  have hoff : off < (gnuTable ids).length := by omega
  unfold gnuLookup
  rw [if_pos hoff, hsuf]
  exact takeUntilSlashNl_append id suf h2

theorem headerBytes_length (field : List Nat) (h : Header) (sizeVal : Nat)
    (hfld : field.length ≤ 16)
    (hmt : (decBytes h.mtime).length ≤ 12) (hu : (decBytes h.uid).length ≤ 6)
    (hg : (decBytes h.gid).length ≤ 6) (hmd : (octBytes h.mode).length ≤ 8)
    (hsz : (decBytes sizeVal).length ≤ 10) :
    (headerBytes field h sizeVal).length = 60 := by
  unfold headerBytes
  simp only [List.length_append, padField_length _ _ hfld, padField_length _ _ hmt,
    padField_length _ _ hu, padField_length _ _ hg, padField_length _ _ hmd,
    padField_length _ _ hsz, List.length_cons, List.length_nil]

-- ======================================================================= --
-- Lemmas: the encode/decode round trip
-- ======================================================================= --

theorem numFit_spec (h : Header) (hf : numFit h = true) :
    (decBytes h.mtime).length ≤ 12 ∧ (decBytes h.uid).length ≤ 6 ∧
    (decBytes h.gid).length ≤ 6 ∧ (octBytes h.mode).length ≤ 8 := by
  unfold numFit at hf
  simp only [Bool.and_eq_true, decide_eq_true_eq] at hf
  exact ⟨hf.1.1.1, hf.1.1.2, hf.1.2, hf.2⟩

theorem idSizeFit_spec (v : Variant) (ctx : List (List Nat)) (h : Header)
    (fld pre : List Nat) (henc : encodeIdField v ctx h.identifier = .ok (fld, pre))
    (hfit : idSizeFit v ctx h = true) :
    fld.length ≤ 16 ∧ (decBytes (h.size + pre.length)).length ≤ 10 := by
  unfold idSizeFit at hfit
  rw [henc] at hfit
  simp only [Bool.and_eq_true, decide_eq_true_eq] at hfit
  exact hfit

theorem encodeHeaderParts_eq (v : Variant) (ctx : List (List Nat)) (h : Header)
    (fld pre : List Nat) (henc : encodeIdField v ctx h.identifier = .ok (fld, pre)) :
    encodeHeaderParts v ctx h = .ok (headerBytes fld h (h.size + pre.length), pre) := by
  unfold encodeHeaderParts
  rw [henc]
  rfl


theorem roundtrip_core (v : Variant) (ctx : List (List Nat)) (h : Header)
    (hrep : representableIn v ctx h.identifier = true)
    (hnum : numFit h = true)
    (hfit : idSizeFit v ctx h = true)
    (tail : List Nat) :
    ∃ hdr pre, encodeHeaderParts v ctx h = .ok (hdr, pre) ∧
      decodeHeaderV v (gnuTable ctx) (hdr ++ pre ++ tail) = some h := by
  obtain ⟨hmt, hu, hg, hmd⟩ := numFit_spec h hnum
  cases v with
  | Common =>
    simp only [representableIn, decide_eq_true_eq] at hrep
    have henc : encodeIdField .Common ctx h.identifier = .ok (h.identifier ++ [47], []) := by
      unfold encodeIdField
      rw [if_pos hrep]
    obtain ⟨hfld, hsz⟩ := idSizeFit_spec _ _ _ _ _ henc hfit
    refine ⟨headerBytes (h.identifier ++ [47]) h (h.size + ([] : List Nat).length), [],
      encodeHeaderParts_eq _ _ _ _ _ henc, ?_⟩
    have hraw := decodeRawHeader_headerBytes (h.identifier ++ [47]) h
      (h.size + ([] : List Nat).length) tail hfld hmt hu hg hmd hsz
    rw [List.append_nil]
    unfold decodeHeaderV
    rw [hraw]
    simp only []
    rw [decodeIdCommon_pad]
    simp
  | BSD =>
    by_cases hesc : bsdNeedsEscape h.identifier = true
    · have henc : encodeIdField .BSD ctx h.identifier =
          .ok ([35, 49, 47] ++ decBytes h.identifier.length, h.identifier) := by
        unfold encodeIdField
        rw [if_pos hesc]
      obtain ⟨hfld, hsz⟩ := idSizeFit_spec _ _ _ _ _ henc hfit
      refine ⟨headerBytes ([35, 49, 47] ++ decBytes h.identifier.length) h
        (h.size + h.identifier.length), h.identifier,
        encodeHeaderParts_eq _ _ _ _ _ henc, ?_⟩
      have hraw := decodeRawHeader_headerBytes ([35, 49, 47] ++ decBytes h.identifier.length) h
        (h.size + h.identifier.length) (h.identifier ++ tail) hfld hmt hu hg hmd hsz
      rw [List.append_assoc]
      unfold decodeHeaderV
      rw [hraw]
      simp only []
      have htrim : trimTrailingSpaces (padField 16 ([35, 49, 47] ++ decBytes h.identifier.length)) =
          [35, 49, 47] ++ decBytes h.identifier.length := by
        apply trimSpaces_pad_all
        intro b hmem
        rcases List.mem_append.mp hmem with hmem | hmem
        · simp only [List.mem_cons, List.mem_singleton] at hmem
          rcases hmem with rfl | rfl | rfl | hmem
          · omega
          · omega
          · omega
          · simp at hmem
        · have := decBytes_mem _ _ hmem
          omega
      rw [htrim]
      have htake : ([35, 49, 47] ++ decBytes h.identifier.length).take 3 = [35, 49, 47] :=
        List.take_left' rfl
      have hdrop : ([35, 49, 47] ++ decBytes h.identifier.length).drop 3 =
          decBytes h.identifier.length := List.drop_left' rfl
      have hall : (decBytes h.identifier.length).all isDigitByte = true := by
        rw [List.all_eq_true]
        intro b hmem
        have := decBytes_mem _ _ hmem
        simp [isDigitByte]
        omega
      rw [if_pos ⟨htake, by rw [hdrop]; exact decBytes_ne_nil _, by rw [hdrop]; exact hall⟩]
      rw [hdrop, parseDec_decBytes]
      simp only []
      have hlen60 : (headerBytes ([35, 49, 47] ++ decBytes h.identifier.length) h
          (h.size + h.identifier.length)).length = 60 :=
        headerBytes_length _ _ _ hfld hmt hu hg hmd hsz
      have hdrop60 : (headerBytes ([35, 49, 47] ++ decBytes h.identifier.length) h
          (h.size + h.identifier.length) ++ (h.identifier ++ tail)).drop 60 =
          h.identifier ++ tail := List.drop_left' hlen60
      rw [hdrop60]
      have htakeid : (h.identifier ++ tail).take h.identifier.length = h.identifier :=
        List.take_left' rfl
      rw [htakeid]
      rw [if_pos ⟨Nat.le_add_left _ _, rfl⟩]
      simp
    · have hescf : bsdNeedsEscape h.identifier = false := by
        cases hb : bsdNeedsEscape h.identifier with
        | true => exact absurd hb hesc
        | false => rfl
      have henc : encodeIdField .BSD ctx h.identifier = .ok (h.identifier ++ [47], []) := by
        unfold encodeIdField
        rw [hescf]
        simp
      obtain ⟨hfld, hsz⟩ := idSizeFit_spec _ _ _ _ _ henc hfit
      refine ⟨headerBytes (h.identifier ++ [47]) h (h.size + ([] : List Nat).length), [],
        encodeHeaderParts_eq _ _ _ _ _ henc, ?_⟩
      have hraw := decodeRawHeader_headerBytes (h.identifier ++ [47]) h
        (h.size + ([] : List Nat).length) tail hfld hmt hu hg hmd hsz
      rw [List.append_nil]
      unfold decodeHeaderV
      rw [hraw]
      simp only []
      have htrim : trimTrailingSpaces (padField 16 (h.identifier ++ [47])) =
          h.identifier ++ [47] := trimSpaces_pad_concat _ 47 16 (by omega)
      rw [htrim]
      rw [if_neg (bsd_guard_fails_common h.identifier)]
      rw [decodeIdCommon_pad]
      simp
  | GNU =>
    simp only [representableIn, Bool.and_eq_true, Bool.not_eq_true'] at hrep
    obtain ⟨hnl, hmemb⟩ := hrep
    have hmem : h.identifier ∈ ctx := by
      simpa using hmemb
    obtain ⟨off, hoff⟩ := assocFind_gnuOffsets_some ctx h.identifier hmem 0
    have henc : encodeIdField .GNU ctx h.identifier = .ok ([47] ++ decBytes off, []) := by
      unfold encodeIdField
      rw [hoff]
    obtain ⟨hfld, hsz⟩ := idSizeFit_spec _ _ _ _ _ henc hfit
    refine ⟨headerBytes ([47] ++ decBytes off) h (h.size + ([] : List Nat).length), [],
      encodeHeaderParts_eq _ _ _ _ _ henc, ?_⟩
    have hraw := decodeRawHeader_headerBytes ([47] ++ decBytes off) h
      (h.size + ([] : List Nat).length) tail hfld hmt hu hg hmd hsz
    rw [List.append_nil]
    unfold decodeHeaderV
    rw [hraw]
    simp only []
    have htrim : trimTrailingSpaces (padField 16 ([47] ++ decBytes off)) =
        [47] ++ decBytes off := by
      apply trimSpaces_pad_all
      intro b hmem2
      rcases List.mem_append.mp hmem2 with hmem2 | hmem2
      · simp only [List.mem_singleton] at hmem2
        omega
      · have := decBytes_mem _ _ hmem2
        omega
    rw [htrim]
    have htake : (([47] : List Nat) ++ decBytes off).take 1 = [47] := List.take_left' rfl
    have hdrop : (([47] : List Nat) ++ decBytes off).drop 1 = decBytes off :=
      List.drop_left' rfl
    have hall : (decBytes off).all isDigitByte = true := by
      rw [List.all_eq_true]
      intro b hmem2
      have := decBytes_mem _ _ hmem2
      simp [isDigitByte]
      omega
    rw [if_pos ⟨htake, by rw [hdrop]; exact decBytes_ne_nil _, by rw [hdrop]; exact hall⟩]
    rw [hdrop, parseDec_decBytes]
    simp only []
    rw [gnuLookup_table ctx h.identifier off hoff hnl]
    simp

-- ======================================================================= --
-- Claim C1: header encode/decode round trip
-- ======================================================================= --

/-- C1 (amended): for every header whose identifier is representable in the
chosen variant and whose rendered numeric fields and resolved identifier
field fit their fixed widths, decoding the encoding yields the header back,
field by field, under any continuation of the byte stream. -/
theorem claim_c1_header_roundtrip (v : Variant) (ctx : List (List Nat)) (h : Header)
    (hrep : representableIn v ctx h.identifier = true)
    (hnum : numFit h = true) (hfit : idSizeFit v ctx h = true) :
    ∃ enc, encodeHeaderV v ctx h = .ok enc ∧
      ∀ tail, decodeHeaderV v (gnuTable ctx) (enc ++ tail) = some h := by
  obtain ⟨hdr, pre, hparts, -⟩ := roundtrip_core v ctx h hrep hnum hfit []
  refine ⟨hdr ++ pre, ?_, ?_⟩
  · unfold encodeHeaderV
    rw [hparts]
    rfl
  · intro tail
    obtain ⟨hdr', pre', hparts', hdec⟩ := roundtrip_core v ctx h hrep hnum hfit tail
    rw [hparts] at hparts'
    injection hparts' with h2
    injection h2 with e1 e2
    subst e1
    subst e2
    exact hdec

/-- C1 witness: the round trip at the concrete BSD long-name header
`("this is a long name.txt", mtime 1, uid 2, gid 3, mode 4, size 5)`. -/
theorem claim_c1_witness :
    ∃ enc, encodeHeaderV .BSD [] (Header.mk exampleLongName 1 2 3 4 5) = .ok enc ∧
      decodeHeaderV .BSD (gnuTable []) (enc ++ [6, 7]) =
        some (Header.mk exampleLongName 1 2 3 4 5) := by
  obtain ⟨enc, he, hd⟩ := claim_c1_header_roundtrip .BSD []
    (Header.mk exampleLongName 1 2 3 4 5) (by decide) (by decide) (by decide)
  exact ⟨enc, he, hd [6, 7]⟩

/-- C1 counterexample: the claim as stated fails without the field-width
side conditions: a header whose mtime needs 13 decimal digits has a
representable identifier, yet decoding its encoding does not return it. -/
theorem claim_c1_counterexample :
    representableIn .Common [] c1Bad.identifier = true ∧
    decodeHeaderV .Common (gnuTable []) (exceptGet (encodeHeaderV .Common [] c1Bad)) ≠
      some c1Bad := by decide

-- ======================================================================= --
-- Lemmas: fields of a written record
-- ======================================================================= --

theorem writeRecord_take16 (fld : List Nat) (h : Header) (sizeVal : Nat)
    (payload : List Nat) (hfld : fld.length ≤ 16) :
    (writeRecord (headerBytes fld h sizeVal) payload).take 16 = padField 16 fld := by
  unfold writeRecord headerBytes
  simp only [List.append_assoc]
  exact List.take_left' (padField_length _ _ hfld)

theorem writeRecord_size_field (fld : List Nat) (h : Header) (sizeVal : Nat)
    (payload : List Nat) (hfld : fld.length ≤ 16)
    (hmt : (decBytes h.mtime).length ≤ 12) (hu : (decBytes h.uid).length ≤ 6)
    (hg : (decBytes h.gid).length ≤ 6) (hmd : (octBytes h.mode).length ≤ 8)
    (hsz : (decBytes sizeVal).length ≤ 10) :
    ((writeRecord (headerBytes fld h sizeVal) payload).drop 48).take 10 =
      padField 10 (decBytes sizeVal) := by
  have hgroup : writeRecord (headerBytes fld h sizeVal) payload =
      (padField 16 fld ++ padField 12 (decBytes h.mtime) ++ padField 6 (decBytes h.uid) ++
        padField 6 (decBytes h.gid) ++ padField 8 (octBytes h.mode)) ++
      (padField 10 (decBytes sizeVal) ++ ([96, 10] ++ (payload ++
        (if payload.length % 2 = 1 then [10] else [])))) := by
    simp [writeRecord, headerBytes, List.append_assoc]
  rw [hgroup]
  rw [List.drop_left' (by
    simp only [List.length_append, padField_length _ _ hfld, padField_length _ _ hmt,
      padField_length _ _ hu, padField_length _ _ hg, padField_length _ _ hmd])]
  exact List.take_left' (padField_length _ _ hsz)

theorem writeRecord_payload (fld : List Nat) (h : Header) (sizeVal : Nat)
    (payload : List Nat) (hfld : fld.length ≤ 16)
    (hmt : (decBytes h.mtime).length ≤ 12) (hu : (decBytes h.uid).length ≤ 6)
    (hg : (decBytes h.gid).length ≤ 6) (hmd : (octBytes h.mode).length ≤ 8)
    (hsz : (decBytes sizeVal).length ≤ 10) :
    (writeRecord (headerBytes fld h sizeVal) payload).drop 60 =
      payload ++ (if payload.length % 2 = 1 then [10] else []) := by
  have hgroup : writeRecord (headerBytes fld h sizeVal) payload =
      headerBytes fld h sizeVal ++ (payload ++
        (if payload.length % 2 = 1 then [10] else [])) := by
    simp [writeRecord, List.append_assoc]
  rw [hgroup]
  exact List.drop_left' (headerBytes_length _ _ _ hfld hmt hu hg hmd hsz)

-- ======================================================================= --
-- Claim C2: the BSD long-name split
-- ======================================================================= --

set_option maxRecDepth 100000 in
/-- C2 (amended): a BSD append of an escape-needing identifier of length N
with content of length C — provided every rendered field fits its fixed
width — yields a record whose identifier field is `#1/N`, whose size field
is `N + C`, and whose payload starts with the N name bytes followed by the
content; in particular, for `"this is a long name.txt"` with `b"hello"`
the identifier field reads `#1/23`, the size field reads `28`, and the
payload is the 23 name bytes followed by `hello`. -/
theorem claim_c2_bsd_split :
    (∀ (h : Header) (content : List Nat), bsdNeedsEscape h.identifier = true →
      h.size = content.length → numFit h = true →
      (decBytes h.identifier.length).length ≤ 13 →
      (decBytes (h.identifier.length + content.length)).length ≤ 10 →
      ∃ r, builderAppend .BSD [] h content = .ok r ∧
        r.take 16 = padField 16 ([35, 49, 47] ++ decBytes h.identifier.length) ∧
        (r.drop 48).take 10 = padField 10 (decBytes (h.identifier.length + content.length)) ∧
        (r.drop 60).take (h.identifier.length + content.length) = h.identifier ++ content) ∧
    (builderAppend .BSD [] (Header.mk exampleLongName 0 0 0 0 5) exampleHello =
      .ok (exceptGet (builderAppend .BSD [] (Header.mk exampleLongName 0 0 0 0 5) exampleHello)) ∧
     (exceptGet (builderAppend .BSD [] (Header.mk exampleLongName 0 0 0 0 5) exampleHello)).take 16 =
       [35, 49, 47, 50, 51] ++ List.replicate 11 32 ∧
     ((exceptGet (builderAppend .BSD [] (Header.mk exampleLongName 0 0 0 0 5) exampleHello)).drop 48).take 10 =
       [50, 56] ++ List.replicate 8 32 ∧
     (exceptGet (builderAppend .BSD [] (Header.mk exampleLongName 0 0 0 0 5) exampleHello)).drop 60 =
       exampleLongName ++ exampleHello) := by
  constructor
  · intro h content hesc hs hnum hfit13 hfit10
    obtain ⟨hmt, hu, hg, hmd⟩ := numFit_spec h hnum
    have henc : encodeIdField .BSD [] h.identifier =
        .ok ([35, 49, 47] ++ decBytes h.identifier.length, h.identifier) := by
      unfold encodeIdField
      rw [if_pos hesc]
    have hparts := encodeHeaderParts_eq .BSD [] h _ _ henc
    have hfld : ([35, 49, 47] ++ decBytes h.identifier.length).length ≤ 16 := by
      simp only [List.length_append, List.length_cons, List.length_nil]
      omega
    have hsize : h.size + h.identifier.length = h.identifier.length + content.length := by
      omega
    rw [hsize] at hparts
    refine ⟨writeRecord (headerBytes ([35, 49, 47] ++ decBytes h.identifier.length) h
      (h.identifier.length + content.length)) (h.identifier ++ content), ?_, ?_, ?_, ?_⟩
    · unfold builderAppend
      rw [hparts]
      rfl
    · exact writeRecord_take16 _ _ _ _ hfld
    · exact writeRecord_size_field _ _ _ _ hfld hmt hu hg hmd hfit10
    · rw [writeRecord_payload _ _ _ _ hfld hmt hu hg hmd hfit10]
      have hpre : ((h.identifier ++ content) ++
          (if (h.identifier ++ content).length % 2 = 1 then [10] else ([] : List Nat))).take
            (h.identifier.length + content.length) = h.identifier ++ content :=
        List.take_left' (List.length_append _ _)
      exact hpre
  · refine ⟨by decide, by decide, by decide, by decide⟩

/-- C2 witness: the general BSD-split statement applied at the concrete
example identifier with one content byte. -/
theorem claim_c2_witness :
    ∃ r, builderAppend .BSD [] (Header.mk exampleLongName 9 8 7 6 1) [104] = .ok r ∧
      r.take 16 = padField 16 ([35, 49, 47] ++
        decBytes (Header.mk exampleLongName 9 8 7 6 1).identifier.length) ∧
      (r.drop 48).take 10 = padField 10 (decBytes
        ((Header.mk exampleLongName 9 8 7 6 1).identifier.length + 1)) ∧
      (r.drop 60).take ((Header.mk exampleLongName 9 8 7 6 1).identifier.length + 1) =
        (Header.mk exampleLongName 9 8 7 6 1).identifier ++ [104] :=
  claim_c2_bsd_split.1 (Header.mk exampleLongName 9 8 7 6 1) [104]
    (by decide) (by decide) (by decide) (by decide) (by decide)

set_option maxRecDepth 100000 in
/-- C2 counterexample: the claim as stated fails without the width side
condition: an identifier whose decimal length needs 14 digits overflows the
16-byte `#1/N` field, so the produced on-wire header's identifier field is
not the `#1/N` field. -/
theorem claim_c2_counterexample :
    bsdNeedsEscape c2Bad = true ∧
    (partsGet (encodeHeaderParts .BSD [] (Header.mk c2Bad 0 0 0 0 0))).1.take 16 ≠
      padField 16 ([35, 49, 47] ++ decBytes c2Bad.length) := by
  have hlen : c2Bad.length = 10000000000000 := List.length_replicate _ _
  have hesc : bsdNeedsEscape c2Bad = true := by
    unfold bsdNeedsEscape
    rw [hlen]
    rw [decide_eq_true (by norm_num : 16 < 10000000000000 + 1)]
    exact Bool.true_or _
  refine ⟨hesc, ?_⟩
  have henc : encodeIdField .BSD [] c2Bad = .ok ([35, 49, 47] ++ decBytes c2Bad.length, c2Bad) := by
    unfold encodeIdField
    rw [if_pos hesc]
  have hparts := encodeHeaderParts_eq .BSD [] (Header.mk c2Bad 0 0 0 0 0) _ _ henc
  rw [hparts]
  have hfldc : ([35, 49, 47] : List Nat) ++ decBytes c2Bad.length =
      [35, 49, 47, 49, 48, 48, 48, 48, 48, 48, 48, 48, 48, 48, 48, 48, 48] := by
    rw [hlen]
    decide
  rw [hfldc]
  intro heq
  have hlen2 := congrArg List.length heq
  rw [List.length_take] at hlen2
  have h17 : (padField 16
      ([35, 49, 47, 49, 48, 48, 48, 48, 48, 48, 48, 48, 48, 48, 48, 48, 48] : List Nat)).length =
      17 := by decide
  rw [h17, Nat.min_def] at hlen2
  split at hlen2
  · omega
  · omega

-- ======================================================================= --
-- Claim C5: record length and padding
-- ======================================================================= --

/-- C5: writing a payload of length L as one record behind a 60-byte header
emits exactly `60 + L + (L mod 2)` bytes, and when L is odd the final pad
byte is the newline. -/
theorem claim_c5_record_padding (hdr payload : List Nat) (hlen : hdr.length = 60) :
    (writeRecord hdr payload).length = 60 + payload.length + payload.length % 2 ∧
    (payload.length % 2 = 1 → (writeRecord hdr payload).getLast? = some 10) := by
  constructor
  · unfold writeRecord
    by_cases hodd : payload.length % 2 = 1
    · rw [if_pos hodd]
      simp only [List.length_append, hlen, List.length_cons, List.length_nil, hodd]
    · rw [if_neg hodd]
      have h0 : payload.length % 2 = 0 := by omega
      simp only [List.length_append, hlen, List.length_nil, h0]
  · intro hodd
    unfold writeRecord
    rw [if_pos hodd]
    rw [List.append_assoc, List.getLast?_append, List.getLast?_concat]
    rfl

/-- C5 witness: the record facts at a concrete even and odd payload. -/
theorem claim_c5_witness :
    (writeRecord (List.replicate 60 32) [104, 105, 33]).length = 60 + 3 + 3 % 2 ∧
    (writeRecord (List.replicate 60 32) [104, 105, 33]).getLast? = some 10 := by
  obtain ⟨h1, h2⟩ := claim_c5_record_padding (List.replicate 60 32) [104, 105, 33] (by decide)
  exact ⟨h1, h2 (by decide)⟩

-- ======================================================================= --
-- Claim C7: streaming entry reads are clipped
-- ======================================================================= --

theorem take_append_drop_len (l : List Nat) (k : Nat) :
    l = l.take k ++ l.drop (l.take k).length := by
  by_cases h : k ≤ l.length
  · have hm : (l.take k).length = k := by
      rw [List.length_take]
      omega
    rw [hm]
    exact (List.take_append_drop k l).symm
  · have ht : l.take k = l := List.take_of_length_le (by omega)
    rw [ht]
    simp

theorem entryReads_spec (ns : List Nat) : ∀ st : EntryState,
    (entryReads st ns).1.length ≤ st.sizeRemaining ∧
    ∃ t, st.source = (entryReads st ns).1 ++ t := by
  induction ns with
  | nil => exact fun st => ⟨Nat.zero_le _, st.source, rfl⟩
  | cons n ns ih =>
    intro st
    obtain ⟨ihlen, t, iheq⟩ := ih (entryRead st n).2
    constructor
    · show ((entryRead st n).1 ++ (entryReads (entryRead st n).2 ns).1).length ≤
        st.sizeRemaining
      rw [List.length_append]
      have h1 : (entryRead st n).1.length ≤ st.sizeRemaining := by
        show (st.source.take (min n st.sizeRemaining)).length ≤ st.sizeRemaining
        rw [List.length_take]
        omega
      have h2 : (entryRead st n).2.sizeRemaining =
          st.sizeRemaining - (entryRead st n).1.length := rfl
      rw [h2] at ihlen
      omega
    · show ∃ t', st.source =
        ((entryRead st n).1 ++ (entryReads (entryRead st n).2 ns).1) ++ t'
      refine ⟨t, ?_⟩
      rw [List.append_assoc, ← iheq]
      have hsrc : (entryRead st n).2.source =
          st.source.drop (entryRead st n).1.length := rfl
      rw [hsrc]
      exact take_append_drop_len st.source (min n st.sizeRemaining)

/-- C7: over any sequence of read calls on an entry declared with size S,
the total bytes returned never exceed S, and everything returned is an
initial segment of the underlying source — reads are clipped, never fed
from bytes past what the source supplies, and a source shorter than S
yields only its own bytes (the short read is surfaced as fewer bytes). -/
theorem claim_c7_entry_clipping (S : Nat) (src ns : List Nat) :
    (entryReads ⟨S, src⟩ ns).1.length ≤ S ∧
    ∃ t, src = (entryReads ⟨S, src⟩ ns).1 ++ t :=
  entryReads_spec ns ⟨S, src⟩

-- ======================================================================= --
-- Claim C4: the magic check
-- ======================================================================= --

theorem parseEntriesF_ne_invalidMagic (fuel : Nat) :
    ∀ bs, parseEntriesF fuel bs ≠ .error .invalidMagic := by
  induction fuel with
  | zero =>
    intro bs hcontra
    rw [parseEntriesF] at hcontra
    simp at hcontra
  | succ fuel ih =>
    intro bs hcontra
    rw [parseEntriesF] at hcontra
    split at hcontra
    · simp at hcontra
    · split at hcontra
      · simp at hcontra
      · split at hcontra
        · simp at hcontra
        · split at hcontra
          · simp at hcontra
          · split at hcontra
            · exact ih _ hcontra
            · split at hcontra
              · simp at hcontra
              · rename_i heq
                simp only [Except.error.injEq] at hcontra
                subst hcontra
                exact ih _ heq

/-- C4: a stream whose first 8 bytes differ from the global magic fails
with InvalidMagic and yields no entries; on a stream beginning with
exactly the magic, the magic check passes and the reader never reports
InvalidMagic. -/
theorem claim_c4_magic (bs : List Nat) :
    (bs.take 8 ≠ globalHeader → readArchive bs = .error .invalidMagic ∧
      ∀ es, readArchive bs ≠ .ok es) ∧
    (bs.take 8 = globalHeader → checkMagic bs = true ∧
      readArchive bs ≠ .error .invalidMagic) := by
  constructor
  · intro hne
    have hm : checkMagic bs = false := by
      unfold checkMagic
      rw [beq_eq_false_iff_ne]
      exact hne
    have herr : readArchive bs = .error .invalidMagic := by
      unfold readArchive
      rw [hm]
      simp
    refine ⟨herr, fun es hcontra => ?_⟩
    rw [herr] at hcontra
    simp at hcontra
  · intro heq
    have hm : checkMagic bs = true := by
      unfold checkMagic
      rw [beq_iff_eq]
      exact heq
    refine ⟨hm, ?_⟩
    unfold readArchive
    rw [hm]
    simp only [if_true]
    exact parseEntriesF_ne_invalidMagic _ _

/-- C4 witness: a concrete malformed stream fails with InvalidMagic and
gives no entries; the magic-only stream passes the check. -/
theorem claim_c4_witness :
    (readArchive [0, 1, 2] = .error .invalidMagic ∧
      ∀ es, readArchive [0, 1, 2] ≠ .ok es) ∧
    (checkMagic globalHeader = true ∧
      readArchive globalHeader ≠ .error .invalidMagic) :=
  ⟨(claim_c4_magic [0, 1, 2]).1 (by decide), (claim_c4_magic globalHeader).2 (by decide)⟩

-- ======================================================================= --
-- Claim C8: reserved identifiers are consumed, never surfaced
-- ======================================================================= --

theorem parseEntriesF_no_pseudo (fuel : Nat) :
    ∀ bs es, parseEntriesF fuel bs = .ok es →
      ∀ e ∈ es, isPseudoId (trimTrailingSpaces e.rawIdField) = false := by
  induction fuel with
  | zero =>
    intro bs es h
    rw [parseEntriesF] at h
    simp at h
  | succ fuel ih =>
    intro bs es h
    rw [parseEntriesF] at h
    split at h
    · simp only [Except.ok.injEq] at h
      subst h
      intro e he
      cases he
    · split at h
      · simp at h
      · split at h
        · simp at h
        · split at h
          · simp at h
          · split at h
            · exact ih _ _ h
            · split at h
              · rename ¬_ = true => hpse
                rename parseEntriesF _ _ = Except.ok _ => heq
                simp only [Except.ok.injEq] at h
                subst h
                intro e he
                cases List.mem_cons.mp he with
                | inl h1 =>
                  subst h1
                  simpa using hpse
                | inr h2 => exact ih _ _ heq e h2
              · simp at h

/-- C8: every entry the archive reader surfaces comes from a record whose
trimmed identifier field is none of the reserved sentinels (`//`, `/`,
`__.SYMDEF`, `__.SYMDEF SORTED`); records with those identifiers are
consumed internally. -/
theorem claim_c8_pseudo_consumed (bs : List Nat) (es : List ArEntry) (e : ArEntry)
    (hok : readArchive bs = .ok es) (hmem : e ∈ es) :
    isPseudoId (trimTrailingSpaces e.rawIdField) = false := by
  unfold readArchive at hok
  split at hok
  · exact parseEntriesF_no_pseudo _ _ _ hok e hmem
  · simp at hok

set_option maxRecDepth 100000 in
/-- C8 witness: the concrete archive containing a `//` pseudo-entry parses
to exactly one real entry, whose identifier field is not a sentinel. -/
theorem claim_c8_witness :
    isPseudoId (trimTrailingSpaces c8Entry.rawIdField) = false :=
  claim_c8_pseudo_consumed c8Archive [c8Entry] c8Entry (by decide) (by decide)

-- ======================================================================= --
-- Claim C9: GnuBuilder append against the precomputed identifier set
-- ======================================================================= --

/-- C9: a GnuBuilder append whose identifier is outside the declared set
fails with UnexpectedIdentifier; an append whose identifier is in the set
looks up the offset precomputed at construction time and writes the entry
with that offset. -/
theorem claim_c9_gnu_append (ids : List (List Nat)) (h : Header) (content : List Nat) :
    (h.identifier ∉ ids →
      (GnuBuilder.new ids).append h content = .error .unexpectedIdentifier) ∧
    (h.identifier ∈ ids →
      ∃ off, assocFind (GnuBuilder.new ids).offsets h.identifier = some off ∧
        (GnuBuilder.new ids).append h content =
          .ok (writeRecord (headerBytes ([47] ++ decBytes off) h h.size) content)) := by
  constructor
  · intro hnm
    show (match assocFind (gnuOffsets ids 0) h.identifier with
      | none => (.error .unexpectedIdentifier : Except ArError (List Nat))
      | some off => .ok (writeRecord (headerBytes ([47] ++ decBytes off) h h.size) content)) =
        .error .unexpectedIdentifier
    rw [assocFind_gnuOffsets_none ids h.identifier hnm 0]
  · intro hm
    obtain ⟨off, hoff⟩ := assocFind_gnuOffsets_some ids h.identifier hm 0
    refine ⟨off, hoff, ?_⟩
    show (match assocFind (gnuOffsets ids 0) h.identifier with
      | none => (.error .unexpectedIdentifier : Except ArError (List Nat))
      | some off => .ok (writeRecord (headerBytes ([47] ++ decBytes off) h h.size) content)) =
        .ok (writeRecord (headerBytes ([47] ++ decBytes off) h h.size) content)
    rw [hoff]

/-- C9 witness: concrete builder over the single identifier `"a"`: an
append of `"b"` errors, an append of `"a"` succeeds with offset 0. -/
theorem claim_c9_witness :
    ((GnuBuilder.new [[97]]).append (Header.new [98] 0) [] =
      .error .unexpectedIdentifier) ∧
    (∃ off, assocFind (GnuBuilder.new [[97]]).offsets [97] = some off ∧
      (GnuBuilder.new [[97]]).append (Header.new [97] 0) [] =
        .ok (writeRecord (headerBytes ([47] ++ decBytes off) (Header.new [97] 0)
          (Header.new [97] 0).size) [])) :=
  ⟨(claim_c9_gnu_append [[97]] (Header.new [98] 0) []).1 (by decide),
   (claim_c9_gnu_append [[97]] (Header.new [97] 0) []).2 (by decide)⟩

-- ======================================================================= --
-- Claim C6: name capacity per variant
-- ======================================================================= --

/-- C6 (amended): for every name longer than the Common capacity (16 bytes
after the terminator), Common encode fails with UnsupportedLongName, while
BSD and GNU encode succeed and decode back to the identical name — the
latter provided the name's decimal length fits the escape fields and, for
GNU, the name does not contain the table terminator slash-newline. -/
theorem claim_c6_name_capacity (id : List Nat)
    (hlong : 16 < id.length + 1)
    (hnl : hasSlashNl id = false)
    (hfit : (decBytes id.length).length ≤ 10) :
    encodeIdField .Common [] id = .error .unsupportedLongName ∧
    (∃ enc, encodeHeaderV .BSD [] (Header.new id 0) = .ok enc ∧
      decodeHeaderV .BSD [] enc = some (Header.new id 0)) ∧
    (∃ enc, encodeHeaderV .GNU [id] (Header.new id 0) = .ok enc ∧
      decodeHeaderV .GNU (gnuTable [id]) enc = some (Header.new id 0)) := by
  refine ⟨?_, ?_, ?_⟩
  · unfold encodeIdField
    rw [if_neg (by omega)]
  · have hesc : bsdNeedsEscape id = true := by
      unfold bsdNeedsEscape
      rw [decide_eq_true hlong]
      exact Bool.true_or _
    have hencB : encodeIdField .BSD [] id = .ok ([35, 49, 47] ++ decBytes id.length, id) := by
      unfold encodeIdField
      rw [if_pos hesc]
    have hfitB : idSizeFit .BSD [] (Header.new id 0) = true := by
      unfold idSizeFit
      simp only [Header.new]
      rw [hencB]
      have hfl : ([35, 49, 47] ++ decBytes id.length).length ≤ 16 := by
        simp only [List.length_append, List.length_cons, List.length_nil]
        omega
      show (decide (([35, 49, 47] ++ decBytes id.length).length ≤ 16) &&
        decide ((decBytes (0 + id.length)).length ≤ 10)) = true
      rw [Nat.zero_add, decide_eq_true hfl, decide_eq_true hfit]
      rfl
    obtain ⟨hdr, pre, hparts, hdec⟩ := roundtrip_core .BSD [] (Header.new id 0) rfl rfl hfitB []
    refine ⟨hdr ++ pre, ?_, ?_⟩
    · unfold encodeHeaderV
      rw [hparts]
      rfl
    · rw [List.append_nil] at hdec
      exact hdec
  · have hrepG : representableIn .GNU [id] (Header.new id 0).identifier = true := by
      show representableIn .GNU [id] id = true
      unfold representableIn
      rw [hnl]
      simp
    have hfind : assocFind (gnuOffsets [id] 0) id = some 0 := by
      simp [gnuOffsets, assocFind]
    have hencG : encodeIdField .GNU [id] id = .ok ([47] ++ decBytes 0, []) := by
      unfold encodeIdField
      rw [hfind]
    have hfitG : idSizeFit .GNU [id] (Header.new id 0) = true := by
      unfold idSizeFit
      simp only [Header.new]
      rw [hencG]
      rfl
    obtain ⟨hdr, pre, hparts, hdec⟩ := roundtrip_core .GNU [id] (Header.new id 0) hrepG rfl hfitG []
    refine ⟨hdr ++ pre, ?_, ?_⟩
    · unfold encodeHeaderV
      rw [hparts]
      rfl
    · rw [List.append_nil] at hdec
      exact hdec

set_option maxRecDepth 100000 in
/-- C6 witness: the capacity statement at the concrete 17-byte name. -/
theorem claim_c6_witness :
    encodeIdField .Common [] (List.replicate 17 97) = .error .unsupportedLongName ∧
    (∃ enc, encodeHeaderV .BSD [] (Header.new (List.replicate 17 97) 0) = .ok enc ∧
      decodeHeaderV .BSD [] enc = some (Header.new (List.replicate 17 97) 0)) ∧
    (∃ enc, encodeHeaderV .GNU [List.replicate 17 97] (Header.new (List.replicate 17 97) 0) = .ok enc ∧
      decodeHeaderV .GNU (gnuTable [List.replicate 17 97]) enc =
        some (Header.new (List.replicate 17 97) 0)) :=
  claim_c6_name_capacity (List.replicate 17 97) (by decide) (by decide) (by decide)

set_option maxRecDepth 100000 in
/-- C6 counterexample: the claim as stated fails for a 16-byte name that
contains the GNU table terminator slash-newline: GNU encode succeeds, but
decode recovers only the bytes before the terminator, not the name. -/
theorem claim_c6_counterexample :
    16 < c6Bad.length + 1 ∧
    decodeHeaderV .GNU (gnuTable [c6Bad])
        (exceptGet (encodeHeaderV .GNU [c6Bad] (Header.new c6Bad 0))) ≠
      some (Header.new c6Bad 0) := by decide

-- ======================================================================= --
-- Claim C3: the GNU name table contents and offsets
-- ======================================================================= --

set_option maxRecDepth 100000 in
/-- C3 (amended): the name-table pseudo-entry's payload is the
concatenation, in declaration order, of every declared identifier followed
by slash-newline (short simple names included), each subsequent entry's
identifier field holds `/offset` with the offset at which that name's
bytes (followed by their terminator) sit in the table; for the example
list the payload is exactly `a.txt/\nthis is a long name.txt/\nb.txt/\n`
and the three appends carry `/0`, `/7` and `/32`. -/
theorem claim_c3_gnu_table :
    (∀ (ids : List (List Nat)) (id : List Nat), id ∈ ids →
      ∃ off suf, assocFind (gnuOffsets ids 0) id = some off ∧
        (gnuTable ids).drop off = id ++ 47 :: 10 :: suf) ∧
    gnuTable exampleGnuIds =
      [97, 46, 116, 120, 116, 47, 10,
       116, 104, 105, 115, 32, 105, 115, 32, 97, 32, 108, 111, 110, 103, 32,
       110, 97, 109, 101, 46, 116, 120, 116, 47, 10,
       98, 46, 116, 120, 116, 47, 10] ∧
    (nameTableRecord exampleGnuIds).drop 60 = gnuTable exampleGnuIds ++ [10] ∧
    (exceptGet ((GnuBuilder.new exampleGnuIds).append (Header.new exampleAName 0) [])).take 16 =
      padField 16 [47, 48] ∧
    (exceptGet ((GnuBuilder.new exampleGnuIds).append (Header.new exampleLongName 0) [])).take 16 =
      padField 16 [47, 55] ∧
    (exceptGet ((GnuBuilder.new exampleGnuIds).append (Header.new exampleBName 0) [])).take 16 =
      padField 16 [47, 51, 50] := by
  refine ⟨?_, by decide, by decide, by decide, by decide, by decide⟩
  intro ids id hmem
  obtain ⟨off, hoff⟩ := assocFind_gnuOffsets_some ids id hmem 0
  obtain ⟨-, suf, hsuf⟩ := gnuOffsets_table ids id 0 off hoff
  rw [Nat.sub_zero] at hsuf
  exact ⟨off, suf, hoff, hsuf⟩

/-- C3 witness: the general offset statement at the example list's last
name. -/
theorem claim_c3_witness :
    ∃ off suf, assocFind (gnuOffsets exampleGnuIds 0) exampleBName = some off ∧
      (gnuTable exampleGnuIds).drop off = exampleBName ++ 47 :: 10 :: suf :=
  claim_c3_gnu_table.1 exampleGnuIds exampleBName (by decide)

set_option maxRecDepth 100000 in
/-- C3 counterexample: the claim's two requirements conflict: filtering out
the short simple names (its general clause) would leave only the long
name's bytes, which differ from the claim's own concrete payload, the one
the builder actually produces. -/
theorem claim_c3_counterexample :
    gnuTable exampleGnuIds ≠ gnuTableFiltered exampleGnuIds ∧
    gnuTableFiltered exampleGnuIds = exampleLongName ++ [47, 10] := by decide
